import Mathlib

/-!
Verification of the raven change-detection polling and persistence engine.

Shallow embedding of `src/main.rs` of the raven repository.

The pure chunking algorithm `split_string_into_sms_message_lengths` is
embedded directly over `List Char` (Rust's `str::chars` iterates Unicode
scalar values, exactly Lean's `Char`).

The effectful part (the poll loop in `main`, `setup`, `persist_forecast`,
and the hash-compare-then-persist steps) is embedded as a trace semantics:
each operation produces the ordered list of observable events (console
emissions and whole-file writes) it performs, and a file system is a map
from paths to file states, updated by replaying events.

`DefaultHasher`'s algorithm is deliberately unspecified by the Rust standard
library documentation (it "may change in any release"), so the fingerprint
`hash : String -> u64` is embedded as an opaque parameter `h : String → Nat`:
every theorem about the engine quantifies over the fingerprint function.
-/

namespace Raven

/-- Constant `TEXT_MESSAGE_LENGTH` from `split_string_into_sms_message_lengths`
(main.rs line 127). -/
def TEXT_MESSAGE_LENGTH : Nat := 160

/-- Core of `split_string_into_sms_message_lengths` (main.rs lines 126-134):
repeatedly take the next `TEXT_MESSAGE_LENGTH` chars from the front of the
remaining char stream, stopping at the first empty chunk.  The Rust source
drives this with an unbounded generator `(0..)` cut by
`take_while(|s| !s.is_empty())`; since every emitted chunk consumes at least
one character, that iteration is exactly this recursion on the remaining
characters. -/
def splitChars (cs : List Char) : List (List Char) :=
  if _hne : cs = [] then []
  else cs.take TEXT_MESSAGE_LENGTH :: splitChars (cs.drop TEXT_MESSAGE_LENGTH)
termination_by cs.length
decreasing_by
  have hpos : 0 < cs.length := List.length_pos.mpr _hne
  simp only [List.length_drop, TEXT_MESSAGE_LENGTH]
  omega

/-- Function `split_string_into_sms_message_lengths` (main.rs lines 126-134): chunk a
string into successive fragments of at most 160 chars each. -/
def split_string_into_sms_message_lengths (forecast : String) : List String :=
  (splitChars forecast.data).map String.mk

theorem splitChars_nil : splitChars [] = [] := by
  rw [splitChars]
  simp

theorem splitChars_of_ne_nil (cs : List Char) (h : cs ≠ []) :
    splitChars cs =
      cs.take TEXT_MESSAGE_LENGTH :: splitChars (cs.drop TEXT_MESSAGE_LENGTH) := by
  rw [splitChars]
  simp [h]

/-- Concatenating the char-level chunks reproduces the input. -/
theorem splitChars_flatten (cs : List Char) : (splitChars cs).flatten = cs := by
  induction cs using splitChars.induct with
  | case1 => simp [splitChars_nil]
  | case2 cs hne ih =>
      rw [splitChars_of_ne_nil cs hne]
      simp [ih]

/-- Every char-level chunk is nonempty and has at most 160 chars. -/
theorem splitChars_mem_length (cs : List Char) (l : List Char)
    (hl : l ∈ splitChars cs) : l ≠ [] ∧ l.length ≤ TEXT_MESSAGE_LENGTH := by
  induction cs using splitChars.induct with
  | case1 => simp [splitChars_nil] at hl
  | case2 cs hne ih =>
      rw [splitChars_of_ne_nil cs hne] at hl
      rcases List.mem_cons.mp hl with hhd | htl
      · subst hhd
        constructor
        · intro hemp
          have : cs.length = 0 ∨ TEXT_MESSAGE_LENGTH = 0 := by
            have := congrArg List.length hemp
            simp only [List.length_take, List.length_nil] at this
            omega
          rcases this with h0 | h0
          · exact hne (List.length_eq_zero.mp h0)
          · simp [TEXT_MESSAGE_LENGTH] at h0
        · simp [List.length_take]
      · exact ih htl

/-- The number of char-level chunks is `⌈length / 160⌉`. -/
theorem splitChars_length (cs : List Char) :
    (splitChars cs).length = (cs.length + (TEXT_MESSAGE_LENGTH - 1)) / TEXT_MESSAGE_LENGTH := by
  induction cs using splitChars.induct with
  | case1 => simp [splitChars_nil, TEXT_MESSAGE_LENGTH]
  | case2 cs hne ih =>
      rw [splitChars_of_ne_nil cs hne]
      have hpos : 0 < cs.length := List.length_pos.mpr hne
      simp only [List.length_cons, ih, List.length_drop, TEXT_MESSAGE_LENGTH] at *
      omega

/-- Function `splitChars` returns `[]` only on `[]`. -/
theorem splitChars_eq_nil_iff (cs : List Char) : splitChars cs = [] ↔ cs = [] := by
  constructor
  · intro h
    by_contra hne
    rw [splitChars_of_ne_nil cs hne] at h
    exact List.cons_ne_nil _ _ h
  · intro h
    subst h
    exact splitChars_nil

/-- Every char-level chunk except possibly the last has exactly 160 chars. -/
theorem splitChars_get_length (cs : List Char) (i : Nat) (l : List Char)
    (hget : (splitChars cs)[i]? = some l) (hlast : i + 1 < (splitChars cs).length) :
    l.length = TEXT_MESSAGE_LENGTH := by
  induction cs using splitChars.induct generalizing i with
  | case1 => simp [splitChars_nil] at hget
  | case2 cs hne ih =>
      rw [splitChars_of_ne_nil cs hne] at hget hlast
      match i with
      | 0 =>
          simp only [List.getElem?_cons_zero, Option.some_inj] at hget
          have hrest : splitChars (cs.drop TEXT_MESSAGE_LENGTH) ≠ [] := by
            simp only [List.length_cons] at hlast
            intro hn
            rw [hn] at hlast
            simp at hlast
          have hdrop : cs.drop TEXT_MESSAGE_LENGTH ≠ [] := by
            intro hd
            exact hrest (by rw [hd]; exact splitChars_nil)
          have hlen : TEXT_MESSAGE_LENGTH < cs.length := by
            by_contra hle
            exact hdrop (List.drop_eq_nil_of_le (by omega))
          subst hget
          simp [List.length_take]
          omega
      | i + 1 =>
          simp only [List.getElem?_cons_succ] at hget
          simp only [List.length_cons] at hlast
          exact ih (i := i) hget (by omega)

/-- Splitting a nonempty text of at most 160 chars yields a single fragment. -/
theorem splitChars_of_short (cs : List Char) (h1 : cs ≠ [])
    (h2 : cs.length ≤ TEXT_MESSAGE_LENGTH) : splitChars cs = [cs] := by
  rw [splitChars_of_ne_nil cs h1, List.take_of_length_le h2,
    List.drop_eq_nil_of_le h2, splitChars_nil]

theorem length_mk (l : List Char) : (String.mk l).length = l.length := rfl

theorem data_mk (l : List Char) : (String.mk l).data = l := rfl

theorem utf8ByteSize_go_replicate (n : Nat) (c : Char) :
    String.utf8ByteSize.go (List.replicate n c) = n * c.utf8Size := by
  induction n with
  | zero => simp [List.replicate, String.utf8ByteSize.go]
  | succ n ih =>
      simp only [List.replicate, String.utf8ByteSize.go, ih]
      ring

theorem utf8ByteSize_mk (l : List Char) :
    (String.mk l).utf8ByteSize = String.utf8ByteSize.go l := rfl

/-- C2: for every text `T`, concatenating in order all fragments returned by
`split_string_into_sms_message_lengths T` (chunking with maxLength fixed at
160) reproduces `T` exactly. -/
theorem C2_chunk_concat_roundtrip (T : String) :
    String.join (split_string_into_sms_message_lengths T) = T := by
  apply String.ext
  rw [String.data_join, split_string_into_sms_message_lengths, List.map_map]
  have hcomp : (String.data ∘ String.mk) = id := funext fun l => rfl
  rw [hcomp, List.map_id]
  exact splitChars_flatten T.data

/-- C3: `split_string_into_sms_message_lengths T` returns a finite sequence of
exactly `⌈T.length / 160⌉` fragments (so the empty string yields zero fragments
and an exact multiple of 160 yields no trailing empty fragment); every fragment
except possibly the last has exactly 160 chars; every fragment is nonempty with
at most 160 chars. -/
theorem C3_fragment_count_and_lengths (T : String) :
    (split_string_into_sms_message_lengths T).length = (T.length + 159) / 160 ∧
    (∀ i f, (split_string_into_sms_message_lengths T)[i]? = some f →
      i + 1 < (split_string_into_sms_message_lengths T).length → f.length = 160) ∧
    (∀ f ∈ split_string_into_sms_message_lengths T, f ≠ "" ∧ f.length ≤ 160) := by
  refine ⟨?_, ?_, ?_⟩
  · rw [split_string_into_sms_message_lengths, List.length_map, splitChars_length]
    rfl
  · intro i f hget hlast
    rw [split_string_into_sms_message_lengths, List.getElem?_map] at hget
    rcases Option.map_eq_some'.mp hget with ⟨l, hl, hfl⟩
    rw [split_string_into_sms_message_lengths, List.length_map] at hlast
    have := splitChars_get_length T.data i l hl hlast
    rw [← hfl, length_mk, this]
    rfl
  · intro f hf
    rw [split_string_into_sms_message_lengths, List.mem_map] at hf
    rcases hf with ⟨l, hl, hfl⟩
    rcases splitChars_mem_length T.data l hl with ⟨hne, hle⟩
    constructor
    · rw [← hfl]
      intro hcon
      exact hne (congrArg String.data hcon)
    · rw [← hfl, length_mk]
      exact hle

/-- C10: fragment length is measured in Unicode scalar values (chars), not
bytes: every fragment has at most 160 chars, yet an input of 160 copies of a
two-byte character yields a fragment whose UTF-8 byte length is 320. -/
theorem C10_chunks_measured_in_chars :
    (∀ T f, f ∈ split_string_into_sms_message_lengths T → f.length ≤ 160) ∧
    (∃ T f, f ∈ split_string_into_sms_message_lengths T ∧ 160 < f.utf8ByteSize) := by
  constructor
  · intro T f hf
    rw [split_string_into_sms_message_lengths, List.mem_map] at hf
    rcases hf with ⟨l, hl, hfl⟩
    rcases splitChars_mem_length T.data l hl with ⟨_, hle⟩
    rw [← hfl, length_mk]
    exact hle
  · refine ⟨String.mk (List.replicate 160 'é'), String.mk (List.replicate 160 'é'), ?_, ?_⟩
    · rw [split_string_into_sms_message_lengths, data_mk,
        splitChars_of_short (List.replicate 160 'é') (by simp)
          (by simp [TEXT_MESSAGE_LENGTH])]
      simp
    · rw [utf8ByteSize_mk, utf8ByteSize_go_replicate]
      have : Char.utf8Size 'é' = 2 := by decide
      rw [this]
      omega

/-! Event-trace embedding of the effectful engine.

`main`'s per-cycle body (main.rs lines 36-48), `setup` (lines 55-63) and
`persist_forecast` (lines 87-95) perform two kinds of observable effects:
console emissions (`println!`) and whole-file writes (`File::create` +
`write!`).  Each embedded operation returns the ordered list of events it
performs; a file system maps paths to file states and is updated by replaying
events.  A file may exist yet be unreadable (`fs::read_to_string` fails on an
existing file on permission errors or invalid UTF-8), which is the
`FileState.unreadable` state; `Path::exists` is true for it, reading fails. -/

/-- Constant `FORECAST_FULL_PATH` (main.rs line 13). -/
def FORECAST_FULL_PATH : String := "forecast_full.txt"

/-- Constant `FORECAST_ABBREVIATED_PATH` (main.rs line 14). -/
def FORECAST_ABBREVIATED_PATH : String := "forecast_abbreviated.txt"

/-- An observable effect of the engine: a console emission or a whole-file
write (`File::create` truncates, so a write replaces the whole file). -/
inductive Event where
  | consoleEmit (text : String)
  | fileWrite (path : String) (content : String)
deriving DecidableEq

/-- State of one path: an existing readable file with its content, or an
existing file whose read fails. -/
inductive FileState where
  | readable (content : String)
  | unreadable
deriving DecidableEq

/-- A file system: each path is absent (`none`) or holds a file state. -/
def FS : Type := String → Option FileState

/-- Existence check `Path::new(p).exists()` (main.rs lines 57, 60). -/
def pathExists (fs : FS) (p : String) : Bool := (fs p).isSome

/-- Read `fs::read_to_string(p)` (main.rs lines 39, 43): `some` content on a
readable file, `none` (an error) on a missing or unreadable file. -/
def readFile (fs : FS) (p : String) : Option String :=
  match fs p with
  | some (FileState.readable c) => some c
  | _ => none

/-- Replay one event against the file system: console emissions do not touch
files; a write makes the path exist with readable content. -/
def applyEvent (fs : FS) : Event → FS
  | Event.consoleEmit _ => fs
  | Event.fileWrite p c => fun q => if q = p then some (FileState.readable c) else fs q

/-- Replay a list of events in order. -/
def run (fs : FS) (evs : List Event) : FS := evs.foldl applyEvent fs

/-- Function `persist_forecast` (main.rs lines 87-95): dump the forecast to the console
(line 89), then write it to disk (lines 92-93).  Its whole behavior is this
ordered pair of effects. -/
def persist_forecast (forecast : String) (filename : String) : List Event :=
  [Event.consoleEmit forecast, Event.fileWrite filename forecast]

/-- First half of `setup` (main.rs lines 57-59): bootstrap the full-forecast
file when it does not exist. -/
def setup_full_events (full_forecast : String) (fs : FS) : List Event :=
  if pathExists fs FORECAST_FULL_PATH then []
  else persist_forecast full_forecast FORECAST_FULL_PATH

/-- Second half of `setup` (main.rs lines 60-62): bootstrap the
abbreviated-forecast file when it does not exist. -/
def setup_abbreviated_events (abbreviated_forecast : String) (fs : FS) : List Event :=
  if pathExists fs FORECAST_ABBREVIATED_PATH then []
  else persist_forecast abbreviated_forecast FORECAST_ABBREVIATED_PATH

/-- Function `setup` (main.rs lines 55-63): run both bootstrap checks in order; the
second existence check observes the file system after the first may have
written. -/
def setup (full_forecast abbreviated_forecast : String) (fs : FS) : List Event :=
  let e1 := setup_full_events full_forecast fs
  e1 ++ setup_abbreviated_events abbreviated_forecast (run fs e1)

/-- One detect-then-persist step (main.rs lines 39-41 and 43-45): read the
stored text (`?` propagates a read failure as `none`), compare fingerprints of
the fresh text and the stored text, and persist exactly when they differ.  The
fingerprint `h` embeds `hash` (main.rs lines 120-124); `DefaultHasher`'s
algorithm is unspecified by the Rust standard library, so `h` is an opaque
deterministic parameter. -/
def detect_persist (h : String → Nat) (newText : String) (path : String) (fs : FS) :
    Option (List Event) :=
  match readFile fs path with
  | none => none
  | some stored =>
      some (if h newText ≠ h stored then persist_forecast newText path else [])

/-- One iteration of the poll loop after the two forecasts are fetched
(main.rs lines 36-48): `setup`, then detect-persist for the full slot, then
detect-persist for the abbreviated slot.  Returns the events performed, and
`some` diagnostic when a storage read failed (the `?` on lines 39/43
propagating the error out of `main`), in which case no later step runs. -/
def cycle (h : String → Nat) (full_forecast abbreviated_forecast : String) (fs : FS) :
    List Event × Option String :=
  let setupEvents := setup full_forecast abbreviated_forecast fs
  let fs1 := run fs setupEvents
  match detect_persist h full_forecast FORECAST_FULL_PATH fs1 with
  | none => (setupEvents, some "could not read stored full forecast")
  | some fullEvents =>
      match detect_persist h abbreviated_forecast FORECAST_ABBREVIATED_PATH
          (run fs1 fullEvents) with
      | none => (setupEvents ++ fullEvents, some "could not read stored abbreviated forecast")
      | some abbrEvents => (setupEvents ++ fullEvents ++ abbrEvents, none)

/-- The file system left behind by one cycle. -/
def cycleFS (h : String → Nat) (full_forecast abbreviated_forecast : String) (fs : FS) : FS :=
  run fs (cycle h full_forecast abbreviated_forecast fs).1

/-- The poll loop of `main` (main.rs lines 17-52) over a list of fetch results
(one `(full, abbreviated)` pair per iteration): run a cycle per fetch; an
error aborts the process (`?` in `main`), so nothing later runs. -/
def poll_loop (h : String → Nat) :
    List (String × String) → FS → List Event × Option String
  | [], _ => ([], none)
  | (f, a) :: rest, fs =>
      match cycle h f a fs with
      | (evs, some e) => (evs, some e)
      | (evs, none) =>
          match poll_loop h rest (run fs evs) with
          | (evs2, r) => (evs ++ evs2, r)

/-- Test for a write event to a given path. -/
def writesTo (p : String) : Event → Bool
  | Event.fileWrite q _ => q = p
  | Event.consoleEmit _ => false

/-- Test for a console emission of a given text. -/
def emits (t : String) : Event → Bool
  | Event.consoleEmit s => s = t
  | Event.fileWrite _ _ => false

theorem full_ne_abbreviated : FORECAST_FULL_PATH ≠ FORECAST_ABBREVIATED_PATH := by
  decide

theorem abbreviated_eq_full_eq_false :
    (FORECAST_ABBREVIATED_PATH = FORECAST_FULL_PATH) = False :=
  eq_false fun h => full_ne_abbreviated h.symm

theorem full_eq_abbreviated_eq_false :
    (FORECAST_FULL_PATH = FORECAST_ABBREVIATED_PATH) = False :=
  eq_false full_ne_abbreviated

theorem run_nil (fs : FS) : run fs [] = fs := rfl

theorem run_cons (fs : FS) (e : Event) (evs : List Event) :
    run fs (e :: evs) = run (applyEvent fs e) evs := rfl

theorem run_append (fs : FS) (a b : List Event) :
    run fs (a ++ b) = run (run fs a) b := by
  simp [run, List.foldl_append]

theorem readFile_run_persist (fs : FS) (f p q : String) :
    readFile (run fs (persist_forecast f p)) q =
      if q = p then some f else readFile fs q := by
  simp only [persist_forecast, run, List.foldl, applyEvent, readFile]
  by_cases hqp : q = p
  · simp [hqp]
  · simp [hqp]

theorem pathExists_run_persist (fs : FS) (f p q : String) :
    pathExists (run fs (persist_forecast f p)) q =
      if q = p then true else pathExists fs q := by
  simp only [persist_forecast, run, List.foldl, applyEvent, pathExists]
  by_cases hqp : q = p
  · simp [hqp]
  · simp [hqp]

theorem pathExists_of_readFile (fs : FS) (p s : String)
    (h : readFile fs p = some s) : pathExists fs p = true := by
  unfold readFile at h
  unfold pathExists
  split at h
  · simp_all
  · simp_all

theorem pathExists_of_unreadable (fs : FS) (p : String)
    (h : fs p = some FileState.unreadable) : pathExists fs p = true := by
  simp [pathExists, h]

theorem readFile_of_unreadable (fs : FS) (p : String)
    (h : fs p = some FileState.unreadable) : readFile fs p = none := by
  simp [readFile, h]

theorem readFile_of_absent (fs : FS) (p : String)
    (h : fs p = none) : readFile fs p = none := by
  simp [readFile, h]

theorem pathExists_of_absent (fs : FS) (p : String)
    (h : fs p = none) : pathExists fs p = false := by
  simp [pathExists, h]

/-- When both slots are readable, one cycle is exactly: no setup events, then
one conditional persist block per slot, and no error. -/
theorem cycle_of_readable (h : String → Nat) (F A : String) (fs : FS) (sF sA : String)
    (hF : readFile fs FORECAST_FULL_PATH = some sF)
    (hA : readFile fs FORECAST_ABBREVIATED_PATH = some sA) :
    cycle h F A fs =
      ((if h F ≠ h sF then persist_forecast F FORECAST_FULL_PATH else []) ++
        (if h A ≠ h sA then persist_forecast A FORECAST_ABBREVIATED_PATH else []),
       none) := by
  have hFE := pathExists_of_readFile fs _ _ hF
  have hAE := pathExists_of_readFile fs _ _ hA
  have hsetup : setup F A fs = [] := by
    simp [setup, setup_full_events, setup_abbreviated_events, hFE, hAE, run_nil]
  have habbr2 :
      readFile (run fs (if h F ≠ h sF then persist_forecast F FORECAST_FULL_PATH else []))
        FORECAST_ABBREVIATED_PATH = some sA := by
    by_cases hch : h F ≠ h sF
    · simp [hch, readFile_run_persist, abbreviated_eq_full_eq_false, hA]
    · simp [hch, run_nil, hA]
  simp only [cycle, hsetup, run_nil, List.nil_append, detect_persist, hF, habbr2, hA]

theorem readFile_cycleFS_of_readable (h : String → Nat) (F A : String) (fs : FS)
    (sF sA : String)
    (hF : readFile fs FORECAST_FULL_PATH = some sF)
    (hA : readFile fs FORECAST_ABBREVIATED_PATH = some sA) :
    readFile (cycleFS h F A fs) FORECAST_FULL_PATH =
      (if h F ≠ h sF then some F else some sF) ∧
    readFile (cycleFS h F A fs) FORECAST_ABBREVIATED_PATH =
      (if h A ≠ h sA then some A else some sA) := by
  rw [cycleFS, cycle_of_readable h F A fs sF sA hF hA]
  by_cases h1 : h F ≠ h sF <;> by_cases h2 : h A ≠ h sA <;>
    simp [h1, h2, run_append, run_nil, readFile_run_persist,
      full_eq_abbreviated_eq_false, abbreviated_eq_full_eq_false, hF, hA]

/-- Cycle shape when both slot files are absent: both are bootstrapped, the
change checks then find matching fingerprints and add nothing. -/
theorem cycle_both_absent (h : String → Nat) (F A : String) (fs : FS)
    (hF : fs FORECAST_FULL_PATH = none) (hA : fs FORECAST_ABBREVIATED_PATH = none) :
    cycle h F A fs =
      (persist_forecast F FORECAST_FULL_PATH ++
        persist_forecast A FORECAST_ABBREVIATED_PATH, none) := by
  have hFE := pathExists_of_absent fs _ hF
  have hAE := pathExists_of_absent fs _ hA
  simp [cycle, setup, setup_full_events, setup_abbreviated_events, detect_persist,
    hFE, hAE, run_append, run_nil, readFile_run_persist, pathExists_run_persist,
    full_eq_abbreviated_eq_false, abbreviated_eq_full_eq_false]

/-- Cycle shape when the full slot is absent and the abbreviated slot is
readable. -/
theorem cycle_full_absent_abbr_readable (h : String → Nat) (F A : String) (fs : FS)
    (sA : String) (hF : fs FORECAST_FULL_PATH = none)
    (hA : readFile fs FORECAST_ABBREVIATED_PATH = some sA) :
    cycle h F A fs =
      (persist_forecast F FORECAST_FULL_PATH ++
        (if h A ≠ h sA then persist_forecast A FORECAST_ABBREVIATED_PATH else []),
       none) := by
  have hFE := pathExists_of_absent fs _ hF
  have hAE := pathExists_of_readFile fs _ _ hA
  simp [cycle, setup, setup_full_events, setup_abbreviated_events, detect_persist,
    hFE, hAE, hA, run_append, run_nil, readFile_run_persist, pathExists_run_persist,
    full_eq_abbreviated_eq_false, abbreviated_eq_full_eq_false]

/-- Cycle shape when the full slot is absent and the abbreviated slot exists
but is unreadable: the full slot is bootstrapped, then the abbreviated storage
read fails and the cycle aborts. -/
theorem cycle_full_absent_abbr_unreadable (h : String → Nat) (F A : String) (fs : FS)
    (hF : fs FORECAST_FULL_PATH = none)
    (hA : fs FORECAST_ABBREVIATED_PATH = some FileState.unreadable) :
    cycle h F A fs =
      (persist_forecast F FORECAST_FULL_PATH,
       some "could not read stored abbreviated forecast") := by
  have hFE := pathExists_of_absent fs _ hF
  have hAE := pathExists_of_unreadable fs _ hA
  have hAR := readFile_of_unreadable fs _ hA
  simp [cycle, setup, setup_full_events, setup_abbreviated_events, detect_persist,
    hFE, hAE, hAR, run_append, run_nil, readFile_run_persist, pathExists_run_persist,
    full_eq_abbreviated_eq_false, abbreviated_eq_full_eq_false]

/-- Cycle shape when the full slot is readable and the abbreviated slot is
absent: the abbreviated slot is bootstrapped during setup, then only the full
slot's change check can add a write. -/
theorem cycle_full_readable_abbr_absent (h : String → Nat) (F A : String) (fs : FS)
    (sF : String) (hF : readFile fs FORECAST_FULL_PATH = some sF)
    (hA : fs FORECAST_ABBREVIATED_PATH = none) :
    cycle h F A fs =
      (persist_forecast A FORECAST_ABBREVIATED_PATH ++
        (if h F ≠ h sF then persist_forecast F FORECAST_FULL_PATH else []),
       none) := by
  have hFE := pathExists_of_readFile fs _ _ hF
  have hAE := pathExists_of_absent fs _ hA
  by_cases hch : h F = h sF <;>
    simp [cycle, setup, setup_full_events, setup_abbreviated_events, detect_persist,
      hFE, hAE, hF, hch, run_append, run_nil, readFile_run_persist,
      pathExists_run_persist, full_eq_abbreviated_eq_false,
      abbreviated_eq_full_eq_false]

/-- Cycle shape when the full slot exists but is unreadable: whatever `setup`
did for the abbreviated slot, the full storage read fails and the cycle
aborts with only the setup events performed. -/
theorem cycle_full_unreadable (h : String → Nat) (F A : String) (fs : FS)
    (hF : fs FORECAST_FULL_PATH = some FileState.unreadable) :
    cycle h F A fs = (setup F A fs, some "could not read stored full forecast") := by
  have hFE := pathExists_of_unreadable fs _ hF
  have hFR := readFile_of_unreadable fs _ hF
  have hsetup : setup F A fs = setup_abbreviated_events A fs := by
    simp [setup, setup_full_events, hFE, run_nil]
  by_cases hAE : pathExists fs FORECAST_ABBREVIATED_PATH <;>
    simp [cycle, hsetup, setup_abbreviated_events, detect_persist, hAE, hFR,
      run_append, run_nil, readFile_run_persist, pathExists_run_persist,
      full_eq_abbreviated_eq_false, abbreviated_eq_full_eq_false]

/-- Cycle shape when the full slot is readable and the abbreviated slot exists
but is unreadable: the full slot's change check runs, then the abbreviated
storage read fails and the cycle aborts. -/
theorem cycle_full_readable_abbr_unreadable (h : String → Nat) (F A : String) (fs : FS)
    (sF : String) (hF : readFile fs FORECAST_FULL_PATH = some sF)
    (hA : fs FORECAST_ABBREVIATED_PATH = some FileState.unreadable) :
    cycle h F A fs =
      ((if h F ≠ h sF then persist_forecast F FORECAST_FULL_PATH else []),
       some "could not read stored abbreviated forecast") := by
  have hFE := pathExists_of_readFile fs _ _ hF
  have hAE := pathExists_of_unreadable fs _ hA
  have hAR := readFile_of_unreadable fs _ hA
  by_cases hch : h F = h sF <;>
    simp [cycle, setup, setup_full_events, setup_abbreviated_events, detect_persist,
      hFE, hAE, hF, hAR, hch, run_append, run_nil, readFile_run_persist,
      pathExists_run_persist, full_eq_abbreviated_eq_false,
      abbreviated_eq_full_eq_false]

/-- A constant fingerprint: a legal instance of the opaque digest parameter,
exhibiting a fingerprint collision on distinct strings. -/
def constFingerprint : String → Nat := fun _ => 0

/-- A sample file system: readable full slot holding "aa", readable
abbreviated slot holding "bbb". -/
def fsPair : FS := fun p =>
  if p = FORECAST_FULL_PATH then some (FileState.readable "aa")
  else if p = FORECAST_ABBREVIATED_PATH then some (FileState.readable "bbb")
  else none

/-- C1: in every cycle and for each slot, a write to the slot's storage occurs
if and only if the fingerprint of the freshly fetched text differs from the
fingerprint of the text read from that slot's storage during that cycle.  The
file system `fs` at cycle start is arbitrary: the comparison depends only on
what is readable from storage when the cycle runs, not on any in-memory record
of past writes. -/
theorem C1_overwrite_iff_fingerprint_differs (h : String → Nat) (F A : String) (fs : FS)
    (sF sA : String)
    (hF : readFile fs FORECAST_FULL_PATH = some sF)
    (hA : readFile fs FORECAST_ABBREVIATED_PATH = some sA) :
    ((∃ c, Event.fileWrite FORECAST_FULL_PATH c ∈ (cycle h F A fs).1) ↔ h F ≠ h sF) ∧
    ((∃ c, Event.fileWrite FORECAST_ABBREVIATED_PATH c ∈ (cycle h F A fs).1) ↔
      h A ≠ h sA) := by
  rw [cycle_of_readable h F A fs sF sA hF hA]
  by_cases h1 : h F = h sF <;> by_cases h2 : h A = h sA <;>
    simp [h1, h2, persist_forecast, full_ne_abbreviated,
      full_eq_abbreviated_eq_false, abbreviated_eq_full_eq_false]

/-- Witness for C1 at a concrete fingerprint, texts and file system. -/
theorem C1_overwrite_iff_fingerprint_differs_witness :
    ((∃ c, Event.fileWrite FORECAST_FULL_PATH c ∈
        (cycle String.length "abc" "bbb" fsPair).1) ↔
      String.length "abc" ≠ String.length "aa") ∧
    ((∃ c, Event.fileWrite FORECAST_ABBREVIATED_PATH c ∈
        (cycle String.length "abc" "bbb" fsPair).1) ↔
      String.length "bbb" ≠ String.length "bbb") :=
  C1_overwrite_iff_fingerprint_differs String.length "abc" "bbb" fsPair "aa" "bbb"
    (by decide) (by decide)

/-- C4 counterexample: stored full text "aa" and fetched full text "b" are
distinct strings, yet under a fingerprint that collides on them the cycle
performs no event at all and leaves the slot's storage unchanged — string
inequality alone does not force an overwrite. -/
theorem C4_collision_no_write_counterexample :
    ("aa" : String) ≠ "b" ∧
    readFile fsPair FORECAST_FULL_PATH = some "aa" ∧
    (cycle constFingerprint "b" "bbb" fsPair).1 = [] ∧
    readFile (cycleFS constFingerprint "b" "bbb" fsPair) FORECAST_FULL_PATH =
      some "aa" := by
  refine ⟨by decide, by decide, by decide, by decide⟩

/-- C4 (amended): in every cycle and for each slot, if the fingerprint of the
freshly fetched text differs from the fingerprint of the stored text — which
mere string inequality does not by itself guarantee — the cycle overwrites
that slot's storage with exactly the fetched text, as a whole-file replace:
afterwards the slot's entire readable content is the fetched text. -/
theorem C4_fingerprint_change_writes_exactly (h : String → Nat) (F A : String) (fs : FS)
    (sF sA : String)
    (hF : readFile fs FORECAST_FULL_PATH = some sF)
    (hA : readFile fs FORECAST_ABBREVIATED_PATH = some sA) :
    (h F ≠ h sF →
      Event.fileWrite FORECAST_FULL_PATH F ∈ (cycle h F A fs).1 ∧
      readFile (cycleFS h F A fs) FORECAST_FULL_PATH = some F) ∧
    (h A ≠ h sA →
      Event.fileWrite FORECAST_ABBREVIATED_PATH A ∈ (cycle h F A fs).1 ∧
      readFile (cycleFS h F A fs) FORECAST_ABBREVIATED_PATH = some A) := by
  have hc := cycle_of_readable h F A fs sF sA hF hA
  have hr := readFile_cycleFS_of_readable h F A fs sF sA hF hA
  constructor
  · intro h1
    refine ⟨?_, ?_⟩
    · rw [hc]
      simp [h1, persist_forecast]
    · rw [hr.1]
      simp [h1]
  · intro h2
    refine ⟨?_, ?_⟩
    · rw [hc]
      simp [h2, persist_forecast]
    · rw [hr.2]
      simp [h2]

/-- Witness for the amended C4 at a concrete fingerprint, texts and file
system. -/
theorem C4_fingerprint_change_writes_exactly_witness :
    Event.fileWrite FORECAST_FULL_PATH "abc" ∈
      (cycle String.length "abc" "zz" fsPair).1 ∧
    readFile (cycleFS String.length "abc" "zz" fsPair) FORECAST_FULL_PATH =
      some "abc" :=
  (C4_fingerprint_change_writes_exactly String.length "abc" "zz" fsPair "aa" "bbb"
    (by decide) (by decide)).1 (by decide)

/-- C5: in every cycle, a slot whose stored text already equals the freshly
fetched text (so the fingerprints match) is not written at all: its storage
content stays byte-for-byte identical, and every event the cycle performs —
console emission or write — belongs to the other slot's persist step, so
nothing is emitted for this slot. -/
theorem C5_unchanged_slot_untouched (h : String → Nat) (F A : String) (fs : FS)
    (sF sA : String)
    (hF : readFile fs FORECAST_FULL_PATH = some sF)
    (hA : readFile fs FORECAST_ABBREVIATED_PATH = some sA) :
    (sF = F →
      (∀ c, Event.fileWrite FORECAST_FULL_PATH c ∉ (cycle h F A fs).1) ∧
      readFile (cycleFS h F A fs) FORECAST_FULL_PATH = some F ∧
      (∀ e ∈ (cycle h F A fs).1,
        e = Event.consoleEmit A ∨ e = Event.fileWrite FORECAST_ABBREVIATED_PATH A)) ∧
    (sA = A →
      (∀ c, Event.fileWrite FORECAST_ABBREVIATED_PATH c ∉ (cycle h F A fs).1) ∧
      readFile (cycleFS h F A fs) FORECAST_ABBREVIATED_PATH = some A ∧
      (∀ e ∈ (cycle h F A fs).1,
        e = Event.consoleEmit F ∨ e = Event.fileWrite FORECAST_FULL_PATH F)) := by
  have hc := cycle_of_readable h F A fs sF sA hF hA
  have hr := readFile_cycleFS_of_readable h F A fs sF sA hF hA
  constructor
  · intro hsF
    have hhF : ¬ h F ≠ h sF := by simp [hsF]
    refine ⟨?_, ?_, ?_⟩
    · intro c
      rw [hc]
      by_cases h2 : h A = h sA <;>
        simp [hhF, h2, persist_forecast, abbreviated_eq_full_eq_false,
          full_eq_abbreviated_eq_false, full_ne_abbreviated]
    · rw [hr.1]
      simp [hhF, hsF]
    · intro e he
      rw [hc] at he
      by_cases h2 : h A = h sA <;>
        simp_all [persist_forecast]
  · intro hsA
    have hhA : ¬ h A ≠ h sA := by simp [hsA]
    refine ⟨?_, ?_, ?_⟩
    · intro c
      rw [hc]
      by_cases h1 : h F = h sF <;>
        simp [hhA, h1, persist_forecast, abbreviated_eq_full_eq_false,
          full_eq_abbreviated_eq_false, full_ne_abbreviated]
    · rw [hr.2]
      simp [hhA, hsA]
    · intro e he
      rw [hc] at he
      by_cases h1 : h F = h sF <;>
        simp_all [persist_forecast]

/-- Witness for C5 at a concrete fingerprint, texts and file system: the full
slot already holds the fetched text "aa". -/
theorem C5_unchanged_slot_untouched_witness :
    (∀ c, Event.fileWrite FORECAST_FULL_PATH c ∉
      (cycle String.length "aa" "zz" fsPair).1) ∧
    readFile (cycleFS String.length "aa" "zz" fsPair) FORECAST_FULL_PATH = some "aa" ∧
    (∀ e ∈ (cycle String.length "aa" "zz" fsPair).1,
      e = Event.consoleEmit "zz" ∨
        e = Event.fileWrite FORECAST_ABBREVIATED_PATH "zz") :=
  (C5_unchanged_slot_untouched String.length "aa" "zz" fsPair "aa" "bbb"
    (by decide) (by decide)).1 (by decide)

/-- After `setup` on a file system whose full slot is absent, the full slot
reads back exactly the fetched full text. -/
theorem readFile_run_setup_full_of_absent (F A : String) (fs : FS)
    (hF : fs FORECAST_FULL_PATH = none) :
    readFile (run fs (setup F A fs)) FORECAST_FULL_PATH = some F := by
  have hFE := pathExists_of_absent fs _ hF
  by_cases hAE : pathExists fs FORECAST_ABBREVIATED_PATH <;>
    simp [setup, setup_full_events, setup_abbreviated_events, hFE, hAE, run_append,
      run_nil, readFile_run_persist, pathExists_run_persist,
      full_eq_abbreviated_eq_false, abbreviated_eq_full_eq_false]

/-- After `setup` on a file system whose abbreviated slot is absent, the
abbreviated slot reads back exactly the fetched abbreviated text. -/
theorem readFile_run_setup_abbr_of_absent (F A : String) (fs : FS)
    (hA : fs FORECAST_ABBREVIATED_PATH = none) :
    readFile (run fs (setup F A fs)) FORECAST_ABBREVIATED_PATH = some A := by
  have hAE := pathExists_of_absent fs _ hA
  by_cases hFE : pathExists fs FORECAST_FULL_PATH <;>
    simp [setup, setup_full_events, setup_abbreviated_events, hFE, hAE, run_append,
      run_nil, readFile_run_persist, pathExists_run_persist,
      full_eq_abbreviated_eq_false, abbreviated_eq_full_eq_false]

/-- C6: in every cycle that starts with a slot's storage file absent, the
cycle creates that file containing exactly the text fetched for that slot —
the bootstrap happens in `setup`, with no hash comparison involved — and the
slot is handled exactly once: the subsequent change check finds matching
fingerprints and adds nothing (`some []`), the whole cycle performs exactly
one write to that slot's path (with exactly the fetched content), and the
console receives that text exactly once (counted whenever the other slot's
text differs; the console stream itself carries no slot tags, so when both
slots fetch the identical string each slot still contributes exactly one
emission, counted there through its own persist step). -/
theorem C6_bootstrap_on_absence (h : String → Nat) (F A : String) (fs : FS) :
    (fs FORECAST_FULL_PATH = none →
      setup_full_events F fs = persist_forecast F FORECAST_FULL_PATH ∧
      detect_persist h F FORECAST_FULL_PATH (run fs (setup F A fs)) = some [] ∧
      readFile (cycleFS h F A fs) FORECAST_FULL_PATH = some F ∧
      (cycle h F A fs).1.filter (writesTo FORECAST_FULL_PATH) =
        [Event.fileWrite FORECAST_FULL_PATH F] ∧
      (A ≠ F → (cycle h F A fs).1.filter (emits F) = [Event.consoleEmit F])) ∧
    (fs FORECAST_ABBREVIATED_PATH = none →
      setup F A fs =
        setup_full_events F fs ++ persist_forecast A FORECAST_ABBREVIATED_PATH ∧
      detect_persist h A FORECAST_ABBREVIATED_PATH (run fs (setup F A fs)) = some [] ∧
      readFile (cycleFS h F A fs) FORECAST_ABBREVIATED_PATH = some A ∧
      (cycle h F A fs).1.filter (writesTo FORECAST_ABBREVIATED_PATH) =
        [Event.fileWrite FORECAST_ABBREVIATED_PATH A] ∧
      (F ≠ A → (cycle h F A fs).1.filter (emits A) = [Event.consoleEmit A])) := by
  constructor
  · intro hF
    have hFE := pathExists_of_absent fs _ hF
    have hsf : setup_full_events F fs = persist_forecast F FORECAST_FULL_PATH := by
      simp [setup_full_events, hFE]
    have hdet : detect_persist h F FORECAST_FULL_PATH (run fs (setup F A fs)) =
        some [] := by
      simp [detect_persist, readFile_run_setup_full_of_absent F A fs hF]
    refine ⟨hsf, hdet, ?_⟩
    rcases habbr : fs FORECAST_ABBREVIATED_PATH with _ | st
    · have hcyc := cycle_both_absent h F A fs hF habbr
      refine ⟨?_, ?_, ?_⟩
      · rw [cycleFS, hcyc]
        simp [run_append, readFile_run_persist, full_eq_abbreviated_eq_false]
      · rw [hcyc]
        simp [persist_forecast, writesTo, abbreviated_eq_full_eq_false]
      · intro hAF
        rw [hcyc]
        simp [persist_forecast, emits, hAF]
    · cases st with
      | readable sA =>
          have hcyc := cycle_full_absent_abbr_readable h F A fs sA hF
            (by simp [readFile, habbr])
          refine ⟨?_, ?_, ?_⟩
          · rw [cycleFS, hcyc]
            by_cases hch : h A = h sA <;>
              simp [hch, run_append, run_nil, readFile_run_persist,
                full_eq_abbreviated_eq_false]
          · rw [hcyc]
            by_cases hch : h A = h sA <;>
              simp [hch, persist_forecast, writesTo, abbreviated_eq_full_eq_false]
          · intro hAF
            rw [hcyc]
            by_cases hch : h A = h sA <;>
              simp [hch, persist_forecast, emits, hAF]
      | unreadable =>
          have hcyc := cycle_full_absent_abbr_unreadable h F A fs hF habbr
          refine ⟨?_, ?_, ?_⟩
          · rw [cycleFS, hcyc]
            simp [readFile_run_persist]
          · rw [hcyc]
            simp [persist_forecast, writesTo]
          · intro hAF
            rw [hcyc]
            simp [persist_forecast, emits]
  · intro hA
    have hAE := pathExists_of_absent fs _ hA
    have hsa : setup F A fs =
        setup_full_events F fs ++ persist_forecast A FORECAST_ABBREVIATED_PATH := by
      by_cases hFE : pathExists fs FORECAST_FULL_PATH <;>
        simp [setup, setup_full_events, setup_abbreviated_events, hFE, hAE,
          run_append, run_nil, pathExists_run_persist, abbreviated_eq_full_eq_false]
    have hdet : detect_persist h A FORECAST_ABBREVIATED_PATH
        (run fs (setup F A fs)) = some [] := by
      simp [detect_persist, readFile_run_setup_abbr_of_absent F A fs hA]
    refine ⟨hsa, hdet, ?_⟩
    rcases hfull : fs FORECAST_FULL_PATH with _ | st
    · have hcyc := cycle_both_absent h F A fs hfull hA
      refine ⟨?_, ?_, ?_⟩
      · rw [cycleFS, hcyc]
        simp [run_append, readFile_run_persist, full_eq_abbreviated_eq_false]
      · rw [hcyc]
        simp [persist_forecast, writesTo, full_eq_abbreviated_eq_false]
      · intro hFA
        rw [hcyc]
        simp [persist_forecast, emits, hFA]
    · cases st with
      | readable sF =>
          have hcyc := cycle_full_readable_abbr_absent h F A fs sF
            (by simp [readFile, hfull]) hA
          refine ⟨?_, ?_, ?_⟩
          · rw [cycleFS, hcyc]
            by_cases hch : h F = h sF <;>
              simp [hch, run_append, run_nil, readFile_run_persist,
                full_eq_abbreviated_eq_false, abbreviated_eq_full_eq_false]
          · rw [hcyc]
            by_cases hch : h F = h sF <;>
              simp [hch, persist_forecast, writesTo, full_eq_abbreviated_eq_false]
          · intro hFA
            rw [hcyc]
            by_cases hch : h F = h sF <;>
              simp [hch, persist_forecast, emits, hFA]
      | unreadable =>
          have hcyc := cycle_full_unreadable h F A fs hfull
          have hsfe : setup_full_events F fs = [] := by
            simp [setup_full_events, pathExists_of_unreadable fs _ hfull]
          refine ⟨?_, ?_, ?_⟩
          · rw [cycleFS, hcyc, hsa, hsfe]
            simp [run_append, run_nil, readFile_run_persist]
          · rw [hcyc, hsa, hsfe]
            simp [persist_forecast, writesTo]
          · intro hFA
            rw [hcyc, hsa, hsfe]
            simp [persist_forecast, emits]

/-- A sample file system with only the abbreviated slot present (readable,
holding "bbb"); the full slot is absent. -/
def fsAbbrOnly : FS := fun p =>
  if p = FORECAST_ABBREVIATED_PATH then some (FileState.readable "bbb") else none

/-- Witness for C6 at a concrete fingerprint, texts and file system with the
full slot absent. -/
theorem C6_bootstrap_on_absence_witness :
    setup_full_events "ff" fsAbbrOnly = persist_forecast "ff" FORECAST_FULL_PATH ∧
    detect_persist String.length "ff" FORECAST_FULL_PATH
      (run fsAbbrOnly (setup "ff" "bbb" fsAbbrOnly)) = some [] ∧
    readFile (cycleFS String.length "ff" "bbb" fsAbbrOnly) FORECAST_FULL_PATH =
      some "ff" ∧
    (cycle String.length "ff" "bbb" fsAbbrOnly).1.filter
      (writesTo FORECAST_FULL_PATH) = [Event.fileWrite FORECAST_FULL_PATH "ff"] ∧
    (cycle String.length "ff" "bbb" fsAbbrOnly).1.filter (emits "ff") =
      [Event.consoleEmit "ff"] := by
  have hc := (C6_bootstrap_on_absence String.length "ff" "bbb" fsAbbrOnly).1 (by decide)
  exact ⟨hc.1, hc.2.1, hc.2.2.1, hc.2.2.2.1, hc.2.2.2.2 (by decide)⟩

/-- After `setup`, the full slot's path exists. -/
theorem pathExists_run_setup_full (F A : String) (fs : FS) :
    pathExists (run fs (setup F A fs)) FORECAST_FULL_PATH = true := by
  by_cases hFE : pathExists fs FORECAST_FULL_PATH = true <;>
    by_cases hAE : pathExists fs FORECAST_ABBREVIATED_PATH = true <;>
    simp_all [setup, setup_full_events, setup_abbreviated_events, run_append, run_nil,
      pathExists_run_persist, full_eq_abbreviated_eq_false,
      abbreviated_eq_full_eq_false]

/-- After `setup`, the abbreviated slot's path exists. -/
theorem pathExists_run_setup_abbr (F A : String) (fs : FS) :
    pathExists (run fs (setup F A fs)) FORECAST_ABBREVIATED_PATH = true := by
  by_cases hFE : pathExists fs FORECAST_FULL_PATH = true <;>
    by_cases hAE : pathExists fs FORECAST_ABBREVIATED_PATH = true <;>
    simp_all [setup, setup_full_events, setup_abbreviated_events, run_append, run_nil,
      pathExists_run_persist, full_eq_abbreviated_eq_false,
      abbreviated_eq_full_eq_false]

/-- C7: when a slot's storage file already exists, `setup` performs no event
for that slot (no write, no console emission); `setup`'s behavior depends only
on which paths exist, never on any file's content (it performs no read); and
running `setup` again on the file system `setup` left behind — where both
slots exist — is a complete no-op. -/
theorem C7_setup_noop_when_exists (F A F2 A2 : String) (fs fs2 : FS) :
    (pathExists fs FORECAST_FULL_PATH = true → setup_full_events F fs = []) ∧
    (pathExists fs FORECAST_ABBREVIATED_PATH = true →
      setup_abbreviated_events A fs = []) ∧
    ((∀ p, pathExists fs p = pathExists fs2 p) → setup F A fs = setup F A fs2) ∧
    setup F2 A2 (run fs (setup F A fs)) = [] := by
  refine ⟨?_, ?_, ?_, ?_⟩
  · intro hFE
    simp [setup_full_events, hFE]
  · intro hAE
    simp [setup_abbreviated_events, hAE]
  · intro hpe
    by_cases hFE : pathExists fs FORECAST_FULL_PATH = true
    · have hFE2 : pathExists fs2 FORECAST_FULL_PATH = true := by
        rw [← hpe]
        exact hFE
      simp [setup, setup_full_events, setup_abbreviated_events, hFE, hFE2, run_nil,
        hpe FORECAST_ABBREVIATED_PATH]
    · have hFE2 : ¬ pathExists fs2 FORECAST_FULL_PATH = true := by
        rw [← hpe]
        exact hFE
      simp [setup, setup_full_events, setup_abbreviated_events, hFE, hFE2,
        run_append, run_nil, pathExists_run_persist, abbreviated_eq_full_eq_false,
        hpe FORECAST_ABBREVIATED_PATH]
  · have h1 := pathExists_run_setup_full F A fs
    have h2 := pathExists_run_setup_abbr F A fs
    revert h1 h2
    generalize run fs (setup F A fs) = g
    intro h1 h2
    simp [setup, setup_full_events, setup_abbreviated_events, h1, h2, run_nil]

/-- Witness for C7 at concrete texts and file systems. -/
theorem C7_setup_noop_when_exists_witness :
    setup_full_events "u" fsPair = [] ∧
    setup_abbreviated_events "v" fsPair = [] ∧
    setup "u" "v" fsPair = setup "u" "v" fsPair ∧
    setup "w" "x" (run fsPair (setup "u" "v" fsPair)) = [] := by
  have hc := C7_setup_noop_when_exists "u" "v" "w" "x" fsPair fsPair
  exact ⟨hc.1 (by decide), hc.2.1 (by decide), hc.2.2.1 (fun p => rfl), hc.2.2.2⟩

/-- An event list made entirely of whole `persist_forecast` blocks, in
order. -/
def IsPersistTrace (evs : List Event) : Prop :=
  ∃ L : List (String × String),
    evs = (L.map fun fp => persist_forecast fp.1 fp.2).flatten

theorem isPersistTrace_nil : IsPersistTrace [] := ⟨[], rfl⟩

theorem isPersistTrace_persist (f p : String) :
    IsPersistTrace (persist_forecast f p) := ⟨[(f, p)], by simp⟩

theorem isPersistTrace_append {a b : List Event}
    (ha : IsPersistTrace a) (hb : IsPersistTrace b) : IsPersistTrace (a ++ b) := by
  rcases ha with ⟨L1, rfl⟩
  rcases hb with ⟨L2, rfl⟩
  exact ⟨L1 ++ L2, by simp⟩

theorem isPersistTrace_ite (c : Prop) [Decidable c] (f p : String) :
    IsPersistTrace (if c then persist_forecast f p else []) := by
  by_cases hc : c
  · simpa [hc] using isPersistTrace_persist f p
  · simpa [hc] using isPersistTrace_nil

theorem isPersistTrace_ite_nil (c : Prop) [Decidable c] (f p : String) :
    IsPersistTrace (if c then [] else persist_forecast f p) := by
  by_cases hc : c
  · simpa [hc] using isPersistTrace_nil
  · simpa [hc] using isPersistTrace_persist f p

theorem isPersistTrace_setup (F A : String) (fs : FS) :
    IsPersistTrace (setup F A fs) := by
  rw [setup]
  exact isPersistTrace_append
    (isPersistTrace_ite_nil _ _ _) (isPersistTrace_ite_nil _ _ _)

theorem isPersistTrace_detect {h : String → Nat} {newText path : String} {fs : FS}
    {evs : List Event} (hd : detect_persist h newText path fs = some evs) :
    IsPersistTrace evs := by
  rw [detect_persist] at hd
  rcases hr : readFile fs path with _ | stored
  · rw [hr] at hd
    simp at hd
  · rw [hr] at hd
    simp only [Option.some_inj] at hd
    rw [← hd]
    exact isPersistTrace_ite _ _ _

theorem isPersistTrace_cycle (h : String → Nat) (F A : String) (fs : FS) :
    IsPersistTrace (cycle h F A fs).1 := by
  have hsetup := isPersistTrace_setup F A fs
  simp only [cycle]
  split
  · simpa using hsetup
  · next e1 heq1 =>
      split
      · simpa using isPersistTrace_append hsetup (isPersistTrace_detect heq1)
      · next e2 heq2 =>
          simpa using isPersistTrace_append
            (isPersistTrace_append hsetup (isPersistTrace_detect heq1))
            (isPersistTrace_detect heq2)

/-- In a trace built of `persist_forecast` blocks, every file write is
immediately preceded by the console emission of the same content. -/
theorem write_preceded_of_isPersistTrace {evs : List Event} (ht : IsPersistTrace evs) :
    ∀ i p c, evs[i]? = some (Event.fileWrite p c) →
      ∃ j, j + 1 = i ∧ evs[j]? = some (Event.consoleEmit c) := by
  rcases ht with ⟨L, rfl⟩
  induction L with
  | nil =>
      intro i p c hi
      simp at hi
  | cons fp L ih =>
      intro i p c hi
      simp only [List.map_cons, List.flatten_cons] at hi ⊢
      rw [show persist_forecast fp.1 fp.2 =
        [Event.consoleEmit fp.1, Event.fileWrite fp.2 fp.1] from rfl] at hi ⊢
      simp only [List.cons_append, List.nil_append] at hi ⊢
      rcases i with _ | (_ | k)
      · rw [List.getElem?_cons_zero] at hi
        simp at hi
      · rw [List.getElem?_cons_succ, List.getElem?_cons_zero] at hi
        have hc : c = fp.1 := by
          have h2 := Option.some.inj hi
          injection h2 with h2a h2b
          exact h2b.symm
        exact ⟨0, rfl, by rw [List.getElem?_cons_zero, hc]⟩
      · rw [List.getElem?_cons_succ, List.getElem?_cons_succ] at hi
        rcases ih k p c hi with ⟨j, hj1, hj2⟩
        refine ⟨j + 2, by omega, ?_⟩
        rw [show j + 2 = (j + 1) + 1 from rfl, List.getElem?_cons_succ,
          List.getElem?_cons_succ]
        exact hj2

/-- C8: `persist_forecast` consists, in order, of the console emission of the
text followed by the storage write — the emission is unconditional whenever
persist runs; consequently, in the event trace of any cycle (bootstrap writes
included), every storage write is immediately preceded by the console emission
of exactly the text being written. -/
theorem C8_emit_precedes_write (h : String → Nat) (F A : String) (fs : FS)
    (forecast filename : String) :
    persist_forecast forecast filename =
      [Event.consoleEmit forecast, Event.fileWrite filename forecast] ∧
    (∀ i p c, (cycle h F A fs).1[i]? = some (Event.fileWrite p c) →
      ∃ j, j + 1 = i ∧ (cycle h F A fs).1[j]? = some (Event.consoleEmit c)) :=
  ⟨rfl, write_preceded_of_isPersistTrace (isPersistTrace_cycle h F A fs)⟩

/-- Witness for C8: in the concrete bootstrap cycle, the write at index 1 is
preceded by the matching console emission. -/
theorem C8_emit_precedes_write_witness :
    ∃ j, j + 1 = 1 ∧
      (cycle String.length "ff" "bbb" fsAbbrOnly).1[j]? =
        some (Event.consoleEmit "ff") :=
  (C8_emit_precedes_write String.length "ff" "bbb" fsAbbrOnly "ff"
    FORECAST_FULL_PATH).2 1 FORECAST_FULL_PATH "ff" (by decide)

/-- C9: when a slot's stored text is unreadable during change detection, the
cycle stops with an error: the error is surfaced by `cycle` (`some`
diagnostic), no write to any slot happens during the remainder of that cycle
(for the full slot, the cycle's events are just the setup events; for the
abbreviated slot, no write to it ever occurs), and the poll loop performs no
further cycle — the whole remaining fetch list is abandoned, so the process
dies rather than retrying or skipping. -/
theorem C9_read_failure_fatal (h : String → Nat) (F A : String) (fs : FS)
    (rest : List (String × String)) :
    (fs FORECAST_FULL_PATH = some FileState.unreadable →
      (cycle h F A fs).2.isSome = true ∧
      (cycle h F A fs).1 = setup F A fs ∧
      poll_loop h ((F, A) :: rest) fs = cycle h F A fs) ∧
    (fs FORECAST_ABBREVIATED_PATH = some FileState.unreadable →
      (cycle h F A fs).2.isSome = true ∧
      (∀ c, Event.fileWrite FORECAST_ABBREVIATED_PATH c ∉ (cycle h F A fs).1) ∧
      poll_loop h ((F, A) :: rest) fs = cycle h F A fs) := by
  constructor
  · intro hF
    have hcyc := cycle_full_unreadable h F A fs hF
    refine ⟨by simp [hcyc], by rw [hcyc], ?_⟩
    rw [poll_loop, hcyc]
  · intro hA
    rcases hfull : fs FORECAST_FULL_PATH with _ | st
    · have hcyc := cycle_full_absent_abbr_unreadable h F A fs hfull hA
      refine ⟨by simp [hcyc], ?_, ?_⟩
      · intro c
        rw [hcyc]
        simp [persist_forecast, full_eq_abbreviated_eq_false,
          abbreviated_eq_full_eq_false]
      · rw [poll_loop, hcyc]
    · cases st with
      | readable sF =>
          have hcyc := cycle_full_readable_abbr_unreadable h F A fs sF
            (by simp [readFile, hfull]) hA
          refine ⟨by simp [hcyc], ?_, ?_⟩
          · intro c
            rw [hcyc]
            by_cases hch : h F = h sF <;>
              simp [hch, persist_forecast, full_eq_abbreviated_eq_false,
                abbreviated_eq_full_eq_false]
          · rw [poll_loop, hcyc]
      | unreadable =>
          have hcyc := cycle_full_unreadable h F A fs hfull
          have hsetup : setup F A fs = [] := by
            simp [setup, setup_full_events, setup_abbreviated_events,
              pathExists_of_unreadable fs _ hfull, pathExists_of_unreadable fs _ hA,
              run_nil]
          refine ⟨by simp [hcyc], ?_, ?_⟩
          · intro c
            rw [hcyc]
            simp [hsetup]
          · rw [poll_loop, hcyc]

/-- A sample file system whose full slot exists but is unreadable and whose
abbreviated slot is readable. -/
def fsFullUnreadable : FS := fun p =>
  if p = FORECAST_FULL_PATH then some FileState.unreadable
  else if p = FORECAST_ABBREVIATED_PATH then some (FileState.readable "bbb")
  else none

/-- Witness for C9 at a concrete file system with an unreadable full slot. -/
theorem C9_read_failure_fatal_witness :
    (cycle String.length "ff" "bbb" fsFullUnreadable).2.isSome = true ∧
    (cycle String.length "ff" "bbb" fsFullUnreadable).1 =
      setup "ff" "bbb" fsFullUnreadable ∧
    poll_loop String.length [("ff", "bbb"), ("x", "y")] fsFullUnreadable =
      cycle String.length "ff" "bbb" fsFullUnreadable :=
  (C9_read_failure_fatal String.length "ff" "bbb" fsFullUnreadable [("x", "y")]).1
    (by decide)

/-- A sample 161-char text used to witness the chunking theorems. -/
def sampleChunkText : String := String.mk (List.replicate 161 'a')

theorem sample_split_eval :
    split_string_into_sms_message_lengths sampleChunkText =
      [String.mk (List.replicate 160 'a'), String.mk (List.replicate 1 'a')] := by
  rw [sampleChunkText, split_string_into_sms_message_lengths, data_mk]
  rw [splitChars_of_ne_nil _ (by simp)]
  rw [show (List.replicate 161 'a').take TEXT_MESSAGE_LENGTH =
    List.replicate 160 'a' from by simp [TEXT_MESSAGE_LENGTH, List.take_replicate]]
  rw [show (List.replicate 161 'a').drop TEXT_MESSAGE_LENGTH =
    List.replicate 1 'a' from by simp [TEXT_MESSAGE_LENGTH, List.drop_replicate]]
  rw [splitChars_of_short _ (by simp) (by simp [TEXT_MESSAGE_LENGTH])]
  simp

/-- Witness for C3 at a concrete 161-char text: the fragment at index 0 is not
the last one and has exactly 160 chars. -/
theorem C3_fragment_count_and_lengths_witness :
    (split_string_into_sms_message_lengths sampleChunkText)[0]? =
      some (String.mk (List.replicate 160 'a')) ∧
    0 + 1 < (split_string_into_sms_message_lengths sampleChunkText).length ∧
    (String.mk (List.replicate 160 'a')).length = 160 := by
  have h1 : (split_string_into_sms_message_lengths sampleChunkText)[0]? =
      some (String.mk (List.replicate 160 'a')) := by
    rw [sample_split_eval]
    rfl
  have h2 : 0 + 1 < (split_string_into_sms_message_lengths sampleChunkText).length := by
    rw [sample_split_eval]
    simp
  exact ⟨h1, h2, (C3_fragment_count_and_lengths sampleChunkText).2.1 0 _ h1 h2⟩

/-- Witness for C10 at a concrete fragment of a concrete text. -/
theorem C10_chunks_measured_in_chars_witness :
    String.mk (List.replicate 160 'a') ∈
      split_string_into_sms_message_lengths sampleChunkText ∧
    (String.mk (List.replicate 160 'a')).length ≤ 160 := by
  have hm : String.mk (List.replicate 160 'a') ∈
      split_string_into_sms_message_lengths sampleChunkText := by
    rw [sample_split_eval]
    simp
  exact ⟨hm, C10_chunks_measured_in_chars.1 sampleChunkText _ hm⟩

end Raven
